import Mathlib

/-!
# Verification of the SPLINTER B-spline builder core

Shallow embedding of the SPLINTER B-spline construction and fitting core.
The repository provides the builder interface header
(`include/bspline_builders.h`); the numerical engine (knot building,
Cox-de Boor basis evaluation, fitting) is declared there and in the spec
but its implementation files are not present, so those components are
modelled from the specification text.  Real numbers (C++ `double`) are
modelled by `ℚ`, which keeps every definition executable.
-/

/-- The single exception class of the library; carries a message. -/
structure SplinterExc where
  msg : String
deriving DecidableEq, Repr

/-- Modelled from the spec: error taxonomy of section 7
(`InvalidConfiguration`, `IllConditionedKnots`, `OutOfDomain`,
`SingularSystem`). -/
inductive FitError where
  | invalidConfiguration : FitError
  | illConditionedKnots : FitError
  | outOfDomain : FitError
  | singularSystem : FitError
deriving DecidableEq, Repr

/-- Modelled from the spec: the knot-spacing policy selector
(`KnotSpacing` in the header; the enum's definition lives in the missing
`knot_builders.h`).  Spec section 4.1 names a uniform policy, a
data-driven policy and an experimental/custom policy. -/
inductive KnotSpacing where
  | uniform : KnotSpacing
  | dataDriven : KnotSpacing
  | experimental : KnotSpacing
deriving DecidableEq, Repr

/-- Modelled from the spec: the smoothing mode of `BSpline::Builder::fit`
(enum `Smoothing` declared in the missing `bspline.h`; the header uses
`Smoothing::NONE`, and the spec lists `{NONE, IDENTITY, PSPLINE}`). -/
inductive Smoothing where
  | NONE : Smoothing
  | IDENTITY : Smoothing
  | PSPLINE : Smoothing
deriving DecidableEq, Repr

/-- The member variables of `BSpline::Builder`
(`bspline_builders.h`, lines 79-83). -/
structure Builder where
  dim_x : ℕ
  dim_y : ℕ
  degrees : List ℕ
  numBasisFunctions : List ℕ
  knotSpacing : KnotSpacing
deriving DecidableEq, Repr

/-- `Builder& degree(unsigned int degree)` (`bspline_builders.h`,
lines 33-37): assigns `_degrees = std::vector<unsigned int>(_dim_x, degree)`,
a vector holding `_dim_x` copies of `degree`. -/
def Builder.degreeScalar (b : Builder) (d : ℕ) : Builder :=
  { b with degrees := List.replicate b.dim_x d }

/-- `Builder& degree(const std::vector<unsigned int>&)`
(`bspline_builders.h`, lines 39-46), in state-passing form: the returned
`Builder` is the object after the call.  If the vector length differs from
`_dim_x` the method throws before any assignment, so the object is
unchanged; otherwise `_degrees` is assigned. -/
def Builder.degreeVecRun (b : Builder) (ds : List ℕ) :
    Except SplinterExc Unit × Builder :=
  if ds.length ≠ b.dim_x then
    (Except.error ⟨"BSpline::Builder::degree: Expected degree vector of length" ++
      toString b.dim_x ++ "."⟩, b)
  else
    (Except.ok (), { b with degrees := ds })

/-- `Builder& num_basis_functions(unsigned int)` (`bspline_builders.h`,
lines 48-52): assigns a vector of `_dim_x` copies of the scalar. -/
def Builder.numBasisFunctionsScalar (b : Builder) (n : ℕ) : Builder :=
  { b with numBasisFunctions := List.replicate b.dim_x n }

/-- `Builder& num_basis_functions(const std::vector<unsigned int>&)`
(`bspline_builders.h`, lines 54-61), in state-passing form; throws before
any assignment when the vector length differs from `_dim_x`. -/
def Builder.numBasisFunctionsVecRun (b : Builder) (ns : List ℕ) :
    Except SplinterExc Unit × Builder :=
  if ns.length ≠ b.dim_x then
    (Except.error ⟨"BSpline::Builder::num_basis_functions: Expected num_basis_functions vector of length " ++
      toString b.dim_x ++ "."⟩, b)
  else
    (Except.ok (), { b with numBasisFunctions := ns })

/-- `Builder& knot_spacing(KnotSpacing)` (`bspline_builders.h`,
lines 63-67): assigns `_knotSpacing`. -/
def Builder.knotSpacingSet (b : Builder) (ks : KnotSpacing) : Builder :=
  { b with knotSpacing := ks }

/-- Modelled from the spec: the left blending ratio of the Cox-de Boor
recursion, `(t - tau_i) / (tau_(i+k) - tau_i)`, with the spec's
convention 0/0 = 0 (guarded so a zero-width knot span never divides). -/
def wLeft (τ : ℕ → ℚ) (i k : ℕ) (t : ℚ) : ℚ :=
  if τ (i + k) = τ i then 0 else (t - τ i) / (τ (i + k) - τ i)

/-- Modelled from the spec: the right blending ratio
`(tau_(i+k) - t) / (tau_(i+k) - tau_i)`, with the convention 0/0 = 0. -/
def wRight (τ : ℕ → ℚ) (i k : ℕ) (t : ℚ) : ℚ :=
  if τ (i + k) = τ i then 0 else (τ (i + k) - t) / (τ (i + k) - τ i)

/-- Modelled from the spec: the Cox-de Boor recursion for the univariate
B-spline basis function of index `i` and degree `k` over the knot vector
`τ` (spec section 4.2).  Degree-0 functions are indicator functions of
the half-open knot spans; a degree-(k+1) function blends the two
degree-k neighbours by the guarded ratios. -/
def coxDeBoor (τ : ℕ → ℚ) : ℕ → ℕ → ℚ → ℚ
  | i, 0, t => if τ i ≤ t ∧ t < τ (i + 1) then 1 else 0
  | i, k + 1, t =>
    wLeft τ i (k + 1) t * coxDeBoor τ i k t +
      wRight τ (i + 1) (k + 1) t * coxDeBoor τ (i + 1) k t

/-- A concrete monotone knot vector: the integers 0, 1, 2, ... -/
def natKnots : ℕ → ℚ := fun i => (i : ℚ)

/-- Smallest element of a list of rationals (0 for the empty list). -/
def listMin (xs : List ℚ) : ℚ :=
  match xs with
  | [] => 0
  | x :: rest => rest.foldl min x

/-- Largest element of a list of rationals (0 for the empty list). -/
def listMax (xs : List ℚ) : ℚ :=
  match xs with
  | [] => 0
  | x :: rest => rest.foldl max x

/-- Modelled from the spec: the interior knots of the uniform policy,
equally spaced across `[lo, hi]` (spec section 4.1). -/
def interiorKnots (lo hi : ℚ) (d n : ℕ) : List ℚ :=
  (List.range (n - d - 1)).map (fun (i : ℕ) =>
    lo + ((i : ℚ) + 1) * (hi - lo) / ((n - d : ℕ) : ℚ))

/-- The clamped uniform candidate knot vector: first and last knot with
multiplicity `d + 1` at the data range endpoints, uniform interior
knots. -/
def clampedUniformKnots (lo hi : ℚ) (d n : ℕ) : List ℚ :=
  List.replicate (d + 1) lo ++ interiorKnots lo hi d n ++
    List.replicate (d + 1) hi

/-- Modelled from the spec: the Schoenberg-Whitney coverage condition
(spec section 3): each interior knot span — each span between
consecutive entries of the boundary list `lo :: interior ++ [hi]` —
must contain at least one sample abscissa, else the design matrix loses
rank. -/
def swCovered (xs : List ℚ) (bounds : List ℚ) : Bool :=
  (bounds.zip bounds.tail).all (fun p =>
    xs.any (fun x => decide (p.1 ≤ x) && decide (x ≤ p.2)))

/-- Modelled from the spec: `KnotVectorBuilder.build` (spec section 4.1),
uniform policy.  The implementation file (`knot_builders.h`/`.cpp`) is
absent, so the builder is modelled from the spec's words: preconditions
`numBasisFunctions ≥ degree + 1`, non-empty abscissas and a positive
abscissa range are checked before any numeric work (violations fail with
`InvalidConfiguration`); the clamped uniform candidate must satisfy the
Schoenberg-Whitney coverage condition relative to the abscissas, else
the builder fails with `IllConditionedKnots` rather than returning a
rank-deficient knot vector. -/
def buildKnotVector (xs : List ℚ) (degree numBasisFunctions : ℕ) :
    Except FitError (List ℚ) :=
  if numBasisFunctions < degree + 1 then Except.error FitError.invalidConfiguration
  else if xs.isEmpty then Except.error FitError.invalidConfiguration
  else if listMin xs < listMax xs then
    if swCovered xs (listMin xs ::
        interiorKnots (listMin xs) (listMax xs) degree numBasisFunctions ++
        [listMax xs]) then
      Except.ok (clampedUniformKnots (listMin xs) (listMax xs) degree
        numBasisFunctions)
    else Except.error FitError.illConditionedKnots
  else Except.error FitError.invalidConfiguration

/-- Modelled from the spec: the sample-table collaborator (`DataTable`),
an ordered sequence of (input vector, output vector) pairs with
dimension metadata. -/
structure DataTable where
  dim_x : ℕ
  dim_y : ℕ
  samples : List (List ℚ × List ℚ)
deriving DecidableEq, Repr

/-- The abscissa values of one input dimension, extracted from the
sample table (spec section 4.4, step 1). -/
def DataTable.abscissas (data : DataTable) (i : ℕ) : List ℚ :=
  data.samples.map (fun s => s.1.getD i 0)

/-- Modelled from the spec: the `BSplineModel` data entity (spec
section 3): dimension counts, per-dimension knot vectors and degrees,
and the flattened row-major control-point coefficient array (scalar
output per multivariate basis function). -/
structure BSplineModel where
  dim_x : ℕ
  dim_y : ℕ
  knots : List (List ℚ)
  degrees : List ℕ
  coefficients : List ℚ
deriving DecidableEq, Repr

/-- Cox-de Boor basis over a knot vector given as a list (out-of-range
knot reads default to 0). -/
def coxDeBoorList (kv : List ℚ) (i k : ℕ) (t : ℚ) : ℚ :=
  coxDeBoor (fun j => kv.getD j 0) i k t

/-- Number of basis functions of one univariate basis: knot count minus
degree minus 1. -/
def numBasis (kv : List ℚ) (d : ℕ) : ℕ := kv.length - d - 1

/-- All values of one dimension's univariate basis at a point. -/
def univariateBasisValues (kv : List ℚ) (d : ℕ) (t : ℚ) : List ℚ :=
  (List.range (numBasis kv d)).map (fun i => coxDeBoorList kv i d t)

/-- Row-major outer product of per-dimension value lists (spec
section 4.3: multivariate basis values as the outer product of the
per-dimension values, last dimension fastest). -/
def tensorProductValues (rows : List (List ℚ)) : List ℚ :=
  rows.foldl (fun acc vals => acc.flatMap (fun a => vals.map (fun v => a * v))) [1]

/-- Modelled from the spec: `TensorBasis.evaluate` — the flattened
row-major list of all multivariate basis values at a query point. -/
def tensorBasisValues (kvs : List (List ℚ)) (ds : List ℕ) (x : List ℚ) : List ℚ :=
  tensorProductValues ((List.range kvs.length).map (fun i =>
    univariateBasisValues (kvs.getD i []) (ds.getD i 0) (x.getD i 0)))

/-- Dot product of two coefficient lists. -/
def dotQ (a b : List ℚ) : ℚ := (List.zipWith (fun x y => x * y) a b).sum

/-- First clamped knot of dimension `i` of a model. -/
def BSplineModel.domainLo (m : BSplineModel) (i : ℕ) : ℚ :=
  (m.knots.getD i []).headD 0

/-- Last clamped knot of dimension `i` of a model. -/
def BSplineModel.domainHi (m : BSplineModel) (i : ℕ) : ℚ :=
  (m.knots.getD i []).getLastD 0

/-- The domain check of spec section 4.2/4.5: some coordinate lies
outside its dimension's clamped knot range. -/
def BSplineModel.outOfDomain (m : BSplineModel) (x : List ℚ) : Bool :=
  (List.range m.knots.length).any (fun i =>
    decide (x.getD i 0 < m.domainLo i) || decide (m.domainHi i < x.getD i 0))

/-- Modelled from the spec: `BSplineModel.evaluate` (spec section 4.5)
with the out-of-domain rejection of section 4.2: a query point outside
the clamped knot range of any dimension fails with `OutOfDomain`,
otherwise the value is the weighted sum of control-point coefficients
with the non-zero tensor basis values. -/
def BSplineModel.evaluate (m : BSplineModel) (x : List ℚ) : Except FitError ℚ :=
  if m.outOfDomain x then Except.error FitError.outOfDomain
  else Except.ok (dotQ (tensorBasisValues m.knots m.degrees x) m.coefficients)

/-- Modelled from the spec: derivative of a univariate basis function
(spec section 4.2), via the standard degree-reduction formula with
guarded ratios; identically 0 for degree 0. -/
def coxDeBoorDerivList (kv : List ℚ) (i k : ℕ) (t : ℚ) : ℚ :=
  match k with
  | 0 => 0
  | k' + 1 =>
    (if kv.getD (i + k' + 1) 0 = kv.getD i 0 then 0
      else ((k' : ℚ) + 1) / (kv.getD (i + k' + 1) 0 - kv.getD i 0) *
        coxDeBoorList kv i k' t) -
    (if kv.getD (i + k' + 2) 0 = kv.getD (i + 1) 0 then 0
      else ((k' : ℚ) + 1) / (kv.getD (i + k' + 2) 0 - kv.getD (i + 1) 0) *
        coxDeBoorList kv (i + 1) k' t)

/-- All derivative values of one dimension's univariate basis. -/
def univariateBasisDerivValues (kv : List ℚ) (d : ℕ) (t : ℚ) : List ℚ :=
  (List.range (numBasis kv d)).map (fun i => coxDeBoorDerivList kv i d t)

/-- Tensor basis values with dimension `j` differentiated, for the
Jacobian (spec section 4.3 gradient variant). -/
def tensorBasisGradValues (kvs : List (List ℚ)) (ds : List ℕ) (x : List ℚ)
    (j : ℕ) : List ℚ :=
  tensorProductValues ((List.range kvs.length).map (fun i =>
    if i = j then univariateBasisDerivValues (kvs.getD i []) (ds.getD i 0) (x.getD i 0)
    else univariateBasisValues (kvs.getD i []) (ds.getD i 0) (x.getD i 0)))

/-- Modelled from the spec: `BSplineModel.evaluateJacobian`
(spec section 4.5), with the same out-of-domain rejection. -/
def BSplineModel.evaluateJacobian (m : BSplineModel) (x : List ℚ) :
    Except FitError (List ℚ) :=
  if m.outOfDomain x then Except.error FitError.outOfDomain
  else Except.ok ((List.range m.knots.length).map (fun j =>
    dotQ (tensorBasisGradValues m.knots m.degrees x j) m.coefficients))

/-- Modelled from the spec: `bspline_unfitted` (header lines 110-120 and
spec section 4.4): builds the per-dimension knot vectors (step 1) but
skips design-matrix assembly and the solve (steps 2-4), returning a
model shell whose control-point array is all zeros, one coefficient per
multivariate basis function.  List-valued options of the wrong length
fail with the configuration-size error before any numeric work.  The
knot-spacing argument selects the policy; the model implements the
uniform policy for every selector value. -/
def bspline_unfitted (data : DataTable) (degrees : List ℕ)
    (_knot_spacing : KnotSpacing) (num_basis_functions : List ℕ) :
    Except FitError BSplineModel :=
  if degrees.length ≠ data.dim_x ∨ num_basis_functions.length ≠ data.dim_x then
    Except.error FitError.invalidConfiguration
  else
    match (List.range data.dim_x).mapM (fun i =>
        buildKnotVector (data.abscissas i) (degrees.getD i 0)
          (num_basis_functions.getD i 0)) with
    | Except.error e => Except.error e
    | Except.ok kvs =>
      Except.ok ⟨data.dim_x, data.dim_y, kvs, degrees,
        List.replicate num_basis_functions.prod 0⟩

/-- Modelled from the spec: the DesignMatrix (spec section 3): entry
(r, c) is the value of multivariate basis function `c` at sample point
`r`.  The basis family is a parameter, so the statement covers any
(tensor-product) basis. -/
def designMatrix {α : Type} (m : ℕ) (basisF : Fin m → α → ℚ) (xs : Fin m → α) :
    Matrix (Fin m) (Fin m) ℚ :=
  Matrix.of (fun r c => basisF c (xs r))

/-- Modelled from the spec: the exact solve of a square non-singular
linear system (adjugate/Cramer form, exact over ℚ). -/
def solveSquare (n : ℕ) (M : Matrix (Fin n) (Fin n) ℚ) (y : Fin n → ℚ) :
    Fin n → ℚ :=
  (M.det)⁻¹ • (M.adjugate.mulVec y)

/-- Modelled from the spec: `fit` with `smoothing = NONE` in the square
case — the exact interpolation solve `D c = y` (spec section 4.4,
step 3), as performed by `bspline_interpolator`. -/
def fitInterpolate {α : Type} (m : ℕ) (basisF : Fin m → α → ℚ)
    (xs : Fin m → α) (ys : Fin m → ℚ) : Fin m → ℚ :=
  solveSquare m (designMatrix m basisF xs) ys

/-- Modelled from the spec: model evaluation (spec section 4.5) as the
weighted sum of basis values with control-point coefficients. -/
def modelEvalLinear {α : Type} (m : ℕ) (basisF : Fin m → α → ℚ)
    (coef : Fin m → ℚ) (x : α) : ℚ :=
  ∑ c, basisF c x * coef c

/-- Modelled from the spec: the discrete second-difference roughness
operator over the (one-dimensional) control-point lattice, one row per
interior coefficient triple, zero rows as padding to square shape. -/
def secondDiffMatrix (n : ℕ) : Matrix (Fin n) (Fin n) ℚ :=
  Matrix.of (fun i j =>
    if (i : ℕ) + 2 < n then
      if (j : ℕ) = (i : ℕ) then 1
      else if (j : ℕ) = (i : ℕ) + 1 then -2
      else if (j : ℕ) = (i : ℕ) + 2 then 1
      else 0
    else 0)

/-- Modelled from the spec: the regularized normal-equation matrix of
fit step 3: `DᵀD` plus `alpha` times the penalty selected by the
smoothing mode (none, ridge identity, or P-spline `PᵀP`). -/
def fitMatrix (s n : ℕ) (D : Matrix (Fin s) (Fin n) ℚ) (sm : Smoothing)
    (alpha : ℚ) : Matrix (Fin n) (Fin n) ℚ :=
  D.transpose * D +
    match sm with
    | Smoothing.NONE => 0
    | Smoothing.IDENTITY => alpha • (1 : Matrix (Fin n) (Fin n) ℚ)
    | Smoothing.PSPLINE => alpha • ((secondDiffMatrix n).transpose * secondDiffMatrix n)

/-- Modelled from the spec: fit steps 3-4 — solve
`(DᵀD + alpha P) c = Dᵀ y` for the given smoothing mode and alpha; fail
with `SingularSystem` when that matrix is not invertible.  No other
smoothing mode or alpha is ever consulted. -/
def fitSolve (s n : ℕ) (D : Matrix (Fin s) (Fin n) ℚ) (y : Fin s → ℚ)
    (sm : Smoothing) (alpha : ℚ) : Except FitError (Fin n → ℚ) :=
  if (fitMatrix s n D sm alpha).det = 0 then Except.error FitError.singularSystem
  else Except.ok (solveSquare n (fitMatrix s n D sm alpha) (D.transpose.mulVec y))

/-- `BSpline::Builder::fit` (`bspline_builders.h`, lines 69-73) is
declared `const`; its implementation is not in the repository, so the
solve is modelled from the spec (`fitSolve`).  The state-passing
embedding returns the builder unchanged, reflecting that a `const`
method cannot modify any member variable. -/
def Builder.fitRun (b : Builder) (s n : ℕ) (D : Matrix (Fin s) (Fin n) ℚ)
    (y : Fin s → ℚ) (sm : Smoothing) (alpha : ℚ) :
    Except FitError (Fin n → ℚ) × Builder :=
  (fitSolve s n D y sm alpha, b)


/-- C3: calling the vector overload of `degree` or `num_basis_functions`
with a vector whose length differs from `dim_x` fails with a
configuration error (the thrown `Exception`, the spec's
`InvalidConfiguration` / `ConfigurationSizeMismatch`) and the vector is
not accepted: the stored option fields are unchanged. -/
theorem builder_vector_setters_reject_wrong_length (b : Builder) (ds ns : List ℕ)
    (hd : ds.length ≠ b.dim_x) (hn : ns.length ≠ b.dim_x) :
    (b.degreeVecRun ds).1 =
      Except.error ⟨"BSpline::Builder::degree: Expected degree vector of length" ++
        toString b.dim_x ++ "."⟩ ∧
    (b.degreeVecRun ds).2 = b ∧
    (b.numBasisFunctionsVecRun ns).1 =
      Except.error ⟨"BSpline::Builder::num_basis_functions: Expected num_basis_functions vector of length " ++
        toString b.dim_x ++ "."⟩ ∧
    (b.numBasisFunctionsVecRun ns).2 = b := by
  refine ⟨?_, ?_, ?_, ?_⟩ <;>
    simp [Builder.degreeVecRun, Builder.numBasisFunctionsVecRun, hd, hn]

/-- Witness for C3 at a concrete builder and wrong-length vectors. -/
theorem builder_vector_setters_reject_wrong_length_witness :
    (Builder.degreeVecRun ⟨2, 1, [], [], KnotSpacing.uniform⟩ [3]).2 =
      ⟨2, 1, [], [], KnotSpacing.uniform⟩ ∧
    (Builder.numBasisFunctionsVecRun ⟨2, 1, [], [], KnotSpacing.uniform⟩ [4, 4, 4]).2 =
      ⟨2, 1, [], [], KnotSpacing.uniform⟩ := by
  have h := builder_vector_setters_reject_wrong_length
    ⟨2, 1, [], [], KnotSpacing.uniform⟩ [3] [4, 4, 4] (by decide) (by decide)
  exact ⟨h.2.1, h.2.2.2⟩

/-- C4: the scalar overloads of `degree` and `num_basis_functions`
replicate the scalar across all `dim_x` input dimensions. -/
theorem builder_scalar_setters_replicate (b : Builder) (d n : ℕ) :
    (b.degreeScalar d).degrees = List.replicate b.dim_x d ∧
    (b.degreeScalar d).degrees.length = b.dim_x ∧
    (∀ x ∈ (b.degreeScalar d).degrees, x = d) ∧
    (b.numBasisFunctionsScalar n).numBasisFunctions = List.replicate b.dim_x n ∧
    (b.numBasisFunctionsScalar n).numBasisFunctions.length = b.dim_x ∧
    (∀ x ∈ (b.numBasisFunctionsScalar n).numBasisFunctions, x = n) := by
  refine ⟨rfl, ?_, ?_, rfl, ?_, ?_⟩
  · simp [Builder.degreeScalar]
  · exact fun x hx => List.eq_of_mem_replicate hx
  · simp [Builder.numBasisFunctionsScalar]
  · exact fun x hx => List.eq_of_mem_replicate hx

/-- C10: each setter changes only its own option field; the wrong-length
error branch of the vector overloads changes nothing (the setters'
success branches keep the dimensions and the other options); `fit` is
`const`, embedded as a pure function of the builder, so no setter-visible
state changes across a `fit` call. -/
theorem builder_setters_frame (b : Builder) (d n : ℕ) (ds ns : List ℕ)
    (ks : KnotSpacing) :
    ((b.degreeScalar d).dim_x = b.dim_x ∧ (b.degreeScalar d).dim_y = b.dim_y ∧
      (b.degreeScalar d).numBasisFunctions = b.numBasisFunctions ∧
      (b.degreeScalar d).knotSpacing = b.knotSpacing) ∧
    ((b.numBasisFunctionsScalar n).dim_x = b.dim_x ∧
      (b.numBasisFunctionsScalar n).dim_y = b.dim_y ∧
      (b.numBasisFunctionsScalar n).degrees = b.degrees ∧
      (b.numBasisFunctionsScalar n).knotSpacing = b.knotSpacing) ∧
    ((b.knotSpacingSet ks).dim_x = b.dim_x ∧ (b.knotSpacingSet ks).dim_y = b.dim_y ∧
      (b.knotSpacingSet ks).degrees = b.degrees ∧
      (b.knotSpacingSet ks).numBasisFunctions = b.numBasisFunctions) ∧
    ((b.degreeVecRun ds).2.dim_x = b.dim_x ∧ (b.degreeVecRun ds).2.dim_y = b.dim_y ∧
      (b.degreeVecRun ds).2.numBasisFunctions = b.numBasisFunctions ∧
      (b.degreeVecRun ds).2.knotSpacing = b.knotSpacing) ∧
    ((b.numBasisFunctionsVecRun ns).2.dim_x = b.dim_x ∧
      (b.numBasisFunctionsVecRun ns).2.dim_y = b.dim_y ∧
      (b.numBasisFunctionsVecRun ns).2.degrees = b.degrees ∧
      (b.numBasisFunctionsVecRun ns).2.knotSpacing = b.knotSpacing) ∧
    (ds.length ≠ b.dim_x → (b.degreeVecRun ds).2 = b) ∧
    (ns.length ≠ b.dim_x → (b.numBasisFunctionsVecRun ns).2 = b) ∧
    (∀ s nn : ℕ, ∀ D : Matrix (Fin s) (Fin nn) ℚ, ∀ y : Fin s → ℚ,
      ∀ sm : Smoothing, ∀ alpha : ℚ, (b.fitRun s nn D y sm alpha).2 = b) := by
  unfold Builder.degreeScalar Builder.numBasisFunctionsScalar Builder.knotSpacingSet
    Builder.degreeVecRun Builder.numBasisFunctionsVecRun Builder.fitRun
  by_cases hd : ds.length = b.dim_x <;> by_cases hn : ns.length = b.dim_x <;>
    simp [hd, hn]

/-- Witness for C10 at a concrete builder. -/
theorem builder_setters_frame_witness :
    (Builder.degreeScalar ⟨1, 1, [0], [5], KnotSpacing.uniform⟩ 3).dim_x = 1 ∧
    (Builder.degreeVecRun ⟨1, 1, [0], [5], KnotSpacing.uniform⟩ []).2 =
      ⟨1, 1, [0], [5], KnotSpacing.uniform⟩ ∧
    (Builder.fitRun ⟨1, 1, [0], [5], KnotSpacing.uniform⟩ 1 1 1 (fun _ => 0)
      Smoothing.NONE 0).2 = ⟨1, 1, [0], [5], KnotSpacing.uniform⟩ := by
  have h := builder_setters_frame ⟨1, 1, [0], [5], KnotSpacing.uniform⟩ 3 4 [] []
    KnotSpacing.dataDriven
  exact ⟨h.1.1, h.2.2.2.2.2.1 (by decide),
    h.2.2.2.2.2.2.2 1 1 1 (fun _ => 0) Smoothing.NONE 0⟩

theorem coxDeBoor_zero_eq (τ : ℕ → ℚ) (i : ℕ) (t : ℚ) :
    coxDeBoor τ i 0 t = if τ i ≤ t ∧ t < τ (i + 1) then 1 else 0 := rfl

theorem coxDeBoor_succ_eq (τ : ℕ → ℚ) (i k : ℕ) (t : ℚ) :
    coxDeBoor τ i (k + 1) t =
      wLeft τ i (k + 1) t * coxDeBoor τ i k t +
        wRight τ (i + 1) (k + 1) t * coxDeBoor τ (i + 1) k t := rfl

/-- Local support: a degree-`k` basis function is non-zero only on
`[τ i, τ (i+k+1))`. -/
theorem coxDeBoor_support (τ : ℕ → ℚ) (hτ : Monotone τ) (k : ℕ) :
    ∀ i : ℕ, ∀ t : ℚ, coxDeBoor τ i k t ≠ 0 → τ i ≤ t ∧ t < τ (i + k + 1) := by
  induction k with
  | zero =>
    intro i t h
    rw [coxDeBoor_zero_eq] at h
    by_cases hc : τ i ≤ t ∧ t < τ (i + 1)
    · exact hc
    · exact absurd (if_neg hc) h
  | succ k ih =>
    intro i t h
    rw [coxDeBoor_succ_eq] at h
    have hor : coxDeBoor τ i k t ≠ 0 ∨ coxDeBoor τ (i + 1) k t ≠ 0 := by
      by_contra hc
      push_neg at hc
      rw [hc.1, hc.2, mul_zero, mul_zero, add_zero] at h
      exact h rfl
    rcases hor with h0 | h0
    · obtain ⟨ha, hb⟩ := ih i t h0
      refine ⟨ha, lt_of_lt_of_le hb (hτ (by omega))⟩
    · obtain ⟨ha, hb⟩ := ih (i + 1) t h0
      refine ⟨le_trans (hτ (by omega)) ha, ?_⟩
      rw [show i + 1 + k + 1 = i + (k + 1) + 1 from by omega] at hb
      exact hb

/-- Non-negativity of the Cox-de Boor basis functions. -/
theorem coxDeBoor_nonneg (τ : ℕ → ℚ) (hτ : Monotone τ) (k : ℕ) :
    ∀ i : ℕ, ∀ t : ℚ, 0 ≤ coxDeBoor τ i k t := by
  induction k with
  | zero =>
    intro i t
    rw [coxDeBoor_zero_eq]
    split <;> norm_num
  | succ k ih =>
    intro i t
    rw [coxDeBoor_succ_eq]
    apply add_nonneg
    · rcases eq_or_ne (coxDeBoor τ i k t) 0 with h0 | h0
      · rw [h0, mul_zero]
      · obtain ⟨ha, hb⟩ := coxDeBoor_support τ hτ k i t h0
        refine mul_nonneg ?_ (ih i t)
        have hd : τ i < τ (i + (k + 1)) := lt_of_le_of_lt ha hb
        rw [wLeft, if_neg (ne_of_gt hd)]
        exact div_nonneg (by linarith) (by linarith)
    · rcases eq_or_ne (coxDeBoor τ (i + 1) k t) 0 with h0 | h0
      · rw [h0, mul_zero]
      · obtain ⟨ha, hb⟩ := coxDeBoor_support τ hτ k (i + 1) t h0
        refine mul_nonneg ?_ (ih (i + 1) t)
        have hd : τ (i + 1) < τ (i + 1 + (k + 1)) := by
          rw [show i + 1 + (k + 1) = i + 1 + k + 1 from by omega]
          exact lt_of_le_of_lt ha hb
        rw [wRight, if_neg (ne_of_gt hd)]
        refine div_nonneg ?_ (by linarith)
        rw [show i + 1 + (k + 1) = i + 1 + k + 1 from by omega]
        linarith

/-- On a non-degenerate span the two guarded ratios of one index sum
to 1. -/
theorem wLeft_add_wRight (τ : ℕ → ℚ) (j m : ℕ) (t : ℚ) (h : τ j < τ (j + m)) :
    wLeft τ j m t + wRight τ j m t = 1 := by
  rw [wLeft, wRight, if_neg (ne_of_gt h), if_neg (ne_of_gt h), div_add_div_same]
  rw [show t - τ j + (τ (j + m) - t) = τ (j + m) - τ j from by ring]
  exact div_self (by linarith)

/-- Local partition of unity: on the span `[τ (b+k), τ (b+k+1))` the
`k+1` basis functions of degree `k` starting at index `b` sum to 1. -/
theorem coxDeBoor_local_partition (τ : ℕ → ℚ) (hτ : Monotone τ) (k : ℕ) :
    ∀ b : ℕ, ∀ t : ℚ, τ (b + k) ≤ t → t < τ (b + k + 1) →
      ∑ r ∈ Finset.range (k + 1), coxDeBoor τ (b + r) k t = 1 := by
  induction k with
  | zero =>
    intro b t h1 h2
    rw [Finset.sum_range_one, coxDeBoor_zero_eq, if_pos ⟨h1, h2⟩]
  | succ k ih =>
    intro b t h1 h2
    have hNb : coxDeBoor τ b k t = 0 := by
      by_contra h0
      have := (coxDeBoor_support τ hτ k b t h0).2
      have hle : τ (b + k + 1) ≤ t := by
        rw [show b + k + 1 = b + (k + 1) from by omega]
        exact h1
      linarith
    have hNtop : coxDeBoor τ (b + (k + 1) + 1) k t = 0 := by
      by_contra h0
      have := (coxDeBoor_support τ hτ k (b + (k + 1) + 1) t h0).1
      have hlt : t < τ (b + (k + 1) + 1) := h2
      linarith
    calc ∑ r ∈ Finset.range (k + 2), coxDeBoor τ (b + r) (k + 1) t
        = ∑ r ∈ Finset.range (k + 2),
            (wLeft τ (b + r) (k + 1) t * coxDeBoor τ (b + r) k t +
              wRight τ (b + r + 1) (k + 1) t * coxDeBoor τ (b + r + 1) k t) := by
          refine Finset.sum_congr rfl fun r _ => ?_
          rw [coxDeBoor_succ_eq]
      _ = (∑ r ∈ Finset.range (k + 2), wLeft τ (b + r) (k + 1) t * coxDeBoor τ (b + r) k t) +
            ∑ r ∈ Finset.range (k + 2), wRight τ (b + r + 1) (k + 1) t * coxDeBoor τ (b + r + 1) k t := by
          rw [Finset.sum_add_distrib]
      _ = (∑ r ∈ Finset.range (k + 1), wLeft τ (b + (r + 1)) (k + 1) t * coxDeBoor τ (b + (r + 1)) k t) +
            ∑ r ∈ Finset.range (k + 1), wRight τ (b + r + 1) (k + 1) t * coxDeBoor τ (b + r + 1) k t := by
          rw [Finset.sum_range_succ' (fun r => wLeft τ (b + r) (k + 1) t * coxDeBoor τ (b + r) k t) (k + 1)]
          rw [Finset.sum_range_succ (fun r => wRight τ (b + r + 1) (k + 1) t * coxDeBoor τ (b + r + 1) k t) (k + 1)]
          simp only [Nat.add_zero]
          rw [hNb, hNtop, mul_zero, mul_zero, add_zero, add_zero]
      _ = ∑ r ∈ Finset.range (k + 1),
            (wLeft τ (b + r + 1) (k + 1) t + wRight τ (b + r + 1) (k + 1) t) *
              coxDeBoor τ (b + r + 1) k t := by
          rw [← Finset.sum_add_distrib]
          refine Finset.sum_congr rfl fun r _ => ?_
          rw [show b + (r + 1) = b + r + 1 from by omega]
          ring
      _ = ∑ r ∈ Finset.range (k + 1), coxDeBoor τ (b + r + 1) k t := by
          refine Finset.sum_congr rfl fun r _ => ?_
          rcases eq_or_ne (coxDeBoor τ (b + r + 1) k t) 0 with h0 | h0
          · rw [h0, mul_zero]
          · obtain ⟨ha, hb⟩ := coxDeBoor_support τ hτ k (b + r + 1) t h0
            have hspan : τ (b + r + 1) < τ (b + r + 1 + (k + 1)) := by
              rw [show b + r + 1 + (k + 1) = b + r + 1 + k + 1 from by omega]
              exact lt_of_le_of_lt ha hb
            rw [wLeft_add_wRight τ (b + r + 1) (k + 1) t hspan, one_mul]
      _ = ∑ r ∈ Finset.range (k + 1), coxDeBoor τ (b + 1 + r) k t := by
          refine Finset.sum_congr rfl fun r _ => ?_
          rw [show b + r + 1 = b + 1 + r from by omega]
      _ = 1 := by
          refine ih (b + 1) t ?_ ?_
          · rw [show b + 1 + k = b + (k + 1) from by omega]
            exact h1
          · rw [show b + 1 + k + 1 = b + (k + 1) + 1 from by omega]
            exact h2

/-- Any point of `[τ d, τ n)` lies in some knot span `[τ j, τ (j+1))`
with `d ≤ j < n`. -/
theorem exists_knot_span (τ : ℕ → ℚ) (d : ℕ) (t : ℚ) :
    ∀ n : ℕ, d < n → τ d ≤ t → t < τ n →
      ∃ j : ℕ, d ≤ j ∧ j < n ∧ τ j ≤ t ∧ t < τ (j + 1) := by
  intro n
  induction n with
  | zero => intro h; omega
  | succ n ihn =>
    intro hdn h1 h2
    by_cases hc : d < n
    · by_cases ht : t < τ n
      · obtain ⟨j, hj1, hj2, hj3, hj4⟩ := ihn hc h1 ht
        exact ⟨j, hj1, by omega, hj3, hj4⟩
      · push_neg at ht
        exact ⟨n, by omega, by omega, ht, h2⟩
    · have hd : d = n := by omega
      subst hd
      exact ⟨d, le_refl d, by omega, h1, h2⟩

/-- C2: partition of unity and range bounds.  For every monotone knot
vector, degree `d` and basis count `n` with `d < n`, at every point `t`
of the clamped domain (`τ d ≤ t < τ n`) the values of the `n` basis
functions sum to exactly 1, and every individual basis function value
lies in `[0, 1]`. -/
theorem coxDeBoor_partition_of_unity (τ : ℕ → ℚ) (hτ : Monotone τ) (d n : ℕ)
    (t : ℚ) (hdn : d < n) (h1 : τ d ≤ t) (h2 : t < τ n) :
    (∑ i ∈ Finset.range n, coxDeBoor τ i d t) = 1 ∧
    ∀ i : ℕ, 0 ≤ coxDeBoor τ i d t ∧ coxDeBoor τ i d t ≤ 1 := by
  obtain ⟨j, hj1, hj2, hj3, hj4⟩ := exists_knot_span τ d t n hdn h1 h2
  have hsum : (∑ i ∈ Finset.range n, coxDeBoor τ i d t) = 1 := by
    have hsub : Finset.Icc (j - d) j ⊆ Finset.range n := by
      intro i hi
      rw [Finset.mem_Icc] at hi
      rw [Finset.mem_range]
      omega
    rw [← Finset.sum_subset hsub ?vanish]
    case vanish =>
      intro i hin hiw
      rw [Finset.mem_range] at hin
      rw [Finset.mem_Icc] at hiw
      push_neg at hiw
      by_contra h0
      obtain ⟨ha, hb⟩ := coxDeBoor_support τ hτ d i t h0
      by_cases hcase : j - d ≤ i
      · have hji : j < i := by omega
        have : τ (j + 1) ≤ τ i := hτ (by omega)
        linarith
      · push_neg at hcase
        have : τ (i + d + 1) ≤ τ j := hτ (by omega)
        linarith
    rw [← Nat.Ico_succ_right, Finset.sum_Ico_eq_sum_range]
    rw [show j + 1 - (j - d) = d + 1 from by omega]
    refine coxDeBoor_local_partition τ hτ d (j - d) t ?_ ?_
    · rw [show j - d + d = j from by omega]
      exact hj3
    · rw [show j - d + d + 1 = j + 1 from by omega]
      exact hj4
  refine ⟨hsum, fun i => ⟨coxDeBoor_nonneg τ hτ d i t, ?_⟩⟩
  by_cases hin : i < n
  · calc coxDeBoor τ i d t
        ≤ ∑ iv ∈ Finset.range n, coxDeBoor τ iv d t :=
          Finset.single_le_sum (fun iv _ => coxDeBoor_nonneg τ hτ d iv t)
            (Finset.mem_range.mpr hin)
      _ = 1 := hsum
  · have h0 : coxDeBoor τ i d t = 0 := by
      by_contra h0
      obtain ⟨ha, _⟩ := coxDeBoor_support τ hτ d i t h0
      have : τ n ≤ τ i := hτ (by omega)
      linarith
    rw [h0]
    norm_num

theorem natKnots_monotone : Monotone natKnots := by
  intro i j h
  simp only [natKnots]
  exact_mod_cast h

/-- Witness for C2: degree 1 over integer knots, evaluated at t = 3/2. -/
theorem coxDeBoor_partition_of_unity_witness :
    (∑ i ∈ Finset.range 3, coxDeBoor natKnots i 1 (3/2 : ℚ)) = 1 ∧
    0 ≤ coxDeBoor natKnots 1 1 (3/2 : ℚ) ∧ coxDeBoor natKnots 1 1 (3/2 : ℚ) ≤ 1 := by
  have h := coxDeBoor_partition_of_unity natKnots natKnots_monotone 1 3 (3/2 : ℚ)
    (by omega) (by norm_num [natKnots]) (by norm_num [natKnots])
  exact ⟨h.1, h.2 1⟩

/-- C7: the 0/0 = 0 convention.  On a zero-width knot span both guarded
blending ratios evaluate to 0 instead of dividing by zero, and a basis
function whose whole support has zero width is identically 0, so repeated
knots contribute nothing and the recursion never performs an unguarded
division. -/
theorem coxDeBoor_zero_width_convention (τ : ℕ → ℚ) (i k : ℕ) (t : ℚ) :
    (τ (i + k) = τ i → wLeft τ i k t = 0 ∧ wRight τ i k t = 0) ∧
    (Monotone τ → τ (i + k + 1) = τ i → coxDeBoor τ i k t = 0) := by
  constructor
  · intro h
    rw [wLeft, wRight, if_pos h, if_pos h]
    exact ⟨rfl, rfl⟩
  · intro hτ h
    by_contra h0
    obtain ⟨ha, hb⟩ := coxDeBoor_support τ hτ k i t h0
    rw [h] at hb
    linarith

/-- Witness for C7 on a constant (everywhere zero-width) knot vector. -/
theorem coxDeBoor_zero_width_convention_witness :
    wLeft (fun _ => (0 : ℚ)) 0 2 5 = 0 ∧ wRight (fun _ => (0 : ℚ)) 0 2 5 = 0 ∧
    coxDeBoor (fun _ => (0 : ℚ)) 0 2 5 = 0 := by
  have h := coxDeBoor_zero_width_convention (fun _ => (0 : ℚ)) 0 2 5
  exact ⟨(h.1 rfl).1, (h.1 rfl).2, h.2 monotone_const rfl⟩

/-- Every interior knot produced by the uniform policy lies strictly
between the abscissa minimum and maximum. -/
theorem interior_knot_bounds (lo hi : ℚ) (hlt : lo < hi) (d n i : ℕ)
    (hn : d + 1 ≤ n) (hi2 : i < n - d - 1) :
    lo < lo + ((i : ℚ) + 1) * (hi - lo) / ((n - d : ℕ) : ℚ) ∧
    lo + ((i : ℚ) + 1) * (hi - lo) / ((n - d : ℕ) : ℚ) < hi := by
  have hnd : 1 ≤ n - d := by omega
  have hcast : (0 : ℚ) < ((n - d : ℕ) : ℚ) := by exact_mod_cast Nat.lt_of_lt_of_le Nat.zero_lt_one hnd
  have hi3 : (i : ℚ) + 1 ≤ ((n - d : ℕ) : ℚ) - 1 + 1 := by
    have : (i : ℚ) ≤ ((n - d : ℕ) : ℚ) - 1 - 1 := by
      have h1 : (i : ℚ) + 1 + 1 ≤ ((n - d : ℕ) : ℚ) := by exact_mod_cast by omega
      linarith
    linarith
  constructor
  · have hpos : 0 < ((i : ℚ) + 1) * (hi - lo) / ((n - d : ℕ) : ℚ) := by
      apply div_pos
      · apply mul_pos
        · positivity
        · linarith
      · exact hcast
    linarith
  · have hlt2 : ((i : ℚ) + 1) * (hi - lo) / ((n - d : ℕ) : ℚ) < hi - lo := by
      rw [div_lt_iff₀ hcast]
      have hi4 : (i : ℚ) + 1 < ((n - d : ℕ) : ℚ) := by exact_mod_cast by omega
      have : ((i : ℚ) + 1) * (hi - lo) < ((n - d : ℕ) : ℚ) * (hi - lo) := by
        apply mul_lt_mul_of_pos_right hi4
        linarith
      linarith
    linarith

/-- Structural facts about the clamped uniform candidate: length
`n + d + 1`, and first/last knot multiplicity exactly `d + 1`. -/
theorem clampedUniformKnots_props (lo hi : ℚ) (hlt : lo < hi) (d n : ℕ)
    (hn : d + 1 ≤ n) :
    (clampedUniformKnots lo hi d n).length = n + d + 1 ∧
    (clampedUniformKnots lo hi d n).count lo = d + 1 ∧
    (clampedUniformKnots lo hi d n).count hi = d + 1 := by
  have hmemlo : ∀ y ∈ interiorKnots lo hi d n, y ≠ lo := by
    intro y hy
    rw [interiorKnots] at hy
    obtain ⟨i, hi2, rfl⟩ := List.mem_map.mp hy
    rw [List.mem_range] at hi2
    have := (interior_knot_bounds lo hi hlt d n i hn hi2).1
    intro hcon
    rw [hcon] at this
    exact lt_irrefl _ this
  have hmemhi : ∀ y ∈ interiorKnots lo hi d n, y ≠ hi := by
    intro y hy
    rw [interiorKnots] at hy
    obtain ⟨i, hi2, rfl⟩ := List.mem_map.mp hy
    rw [List.mem_range] at hi2
    exact ne_of_lt (interior_knot_bounds lo hi hlt d n i hn hi2).2
  refine ⟨?_, ?_, ?_⟩
  · simp only [clampedUniformKnots, interiorKnots, List.length_append,
      List.length_replicate, List.length_map, List.length_range]
    omega
  · have e2 : List.count lo (List.replicate (d + 1) hi) = 0 := by
      rw [List.count_eq_zero]
      intro hc
      exact absurd (List.eq_of_mem_replicate hc) (ne_of_lt hlt)
    rw [clampedUniformKnots, List.count_append, List.count_append,
      List.count_eq_zero.mpr (fun hc => hmemlo _ hc rfl), e2]
    simp [List.count_replicate]
  · have e1 : List.count hi (List.replicate (d + 1) lo) = 0 := by
      rw [List.count_eq_zero]
      intro hc
      exact absurd (List.eq_of_mem_replicate hc) (ne_of_gt hlt)
    rw [clampedUniformKnots, List.count_append, List.count_append, e1,
      List.count_eq_zero.mpr (fun hc => hmemhi _ hc rfl)]
    simp [List.count_replicate]

/-- C5: knot-vector construction with `numBasisFunctions < degree + 1`,
an empty abscissa list, or abscissas without a positive range fails with
`InvalidConfiguration` before any numeric work; a candidate knot layout
that cannot satisfy the Schoenberg-Whitney coverage condition relative
to the abscissas fails with `IllConditionedKnots` rather than being
returned; when coverage holds the clamped uniform vector is returned,
and every knot vector ever returned has length
`numBasisFunctions + degree + 1` with first and last knot each of
multiplicity exactly `degree + 1`. -/
theorem buildKnotVector_spec (xs : List ℚ) (d n : ℕ) :
    (n < d + 1 → buildKnotVector xs d n = Except.error FitError.invalidConfiguration) ∧
    (xs = [] → buildKnotVector xs d n = Except.error FitError.invalidConfiguration) ∧
    (¬ listMin xs < listMax xs →
      buildKnotVector xs d n = Except.error FitError.invalidConfiguration) ∧
    (d + 1 ≤ n → xs ≠ [] → listMin xs < listMax xs →
      swCovered xs (listMin xs :: interiorKnots (listMin xs) (listMax xs) d n ++
        [listMax xs]) = false →
      buildKnotVector xs d n = Except.error FitError.illConditionedKnots) ∧
    (d + 1 ≤ n → xs ≠ [] → listMin xs < listMax xs →
      swCovered xs (listMin xs :: interiorKnots (listMin xs) (listMax xs) d n ++
        [listMax xs]) = true →
      buildKnotVector xs d n =
        Except.ok (clampedUniformKnots (listMin xs) (listMax xs) d n)) ∧
    (∀ ks : List ℚ, buildKnotVector xs d n = Except.ok ks →
      ks.length = n + d + 1 ∧
      ks.count (listMin xs) = d + 1 ∧ ks.count (listMax xs) = d + 1) := by
  refine ⟨?_, ?_, ?_, ?_, ?_, ?_⟩
  · intro h
    rw [buildKnotVector, if_pos h]
  · intro h
    subst h
    rw [buildKnotVector]
    by_cases h1 : n < d + 1
    · rw [if_pos h1]
    · rw [if_neg h1, if_pos (by rfl)]
  · intro h
    rw [buildKnotVector]
    by_cases h1 : n < d + 1
    · rw [if_pos h1]
    · rw [if_neg h1]
      by_cases h2 : xs.isEmpty
      · rw [if_pos h2]
      · rw [if_neg h2, if_neg h]
  · intro h1 h2 h3 h4
    rw [buildKnotVector, if_neg (by omega),
      if_neg (by simpa [List.isEmpty_iff] using h2), if_pos h3]
    rw [if_neg (by rw [h4]; decide)]
  · intro h1 h2 h3 h4
    rw [buildKnotVector, if_neg (by omega),
      if_neg (by simpa [List.isEmpty_iff] using h2), if_pos h3, if_pos h4]
  · intro ks hks
    rw [buildKnotVector] at hks
    by_cases h1 : n < d + 1
    · rw [if_pos h1] at hks
      exact absurd hks (by simp)
    · rw [if_neg h1] at hks
      by_cases h2 : xs.isEmpty
      · rw [if_pos h2] at hks
        exact absurd hks (by simp)
      · rw [if_neg h2] at hks
        by_cases h3 : listMin xs < listMax xs
        · rw [if_pos h3] at hks
          by_cases h4 : swCovered xs (listMin xs ::
              interiorKnots (listMin xs) (listMax xs) d n ++ [listMax xs]) = true
          · rw [if_pos h4] at hks
            have hkse : clampedUniformKnots (listMin xs) (listMax xs) d n = ks :=
              Except.ok.inj hks
            rw [← hkse]
            exact clampedUniformKnots_props (listMin xs) (listMax xs) h3 d n
              (by omega)
          · rw [if_neg h4] at hks
            exact absurd hks (by simp)
        · rw [if_neg h3] at hks
          exact absurd hks (by simp)

/-- Witness for C5: abscissas `[0, 1]` with degree 1: success with two
basis functions, the three `InvalidConfiguration` violations, and the
Schoenberg-Whitney coverage failure with four basis functions (the
middle interior span `[1/3, 2/3]` contains no abscissa). -/
theorem buildKnotVector_spec_witness :
    buildKnotVector [(0 : ℚ), 1] 1 2 = Except.ok [0, 0, 1, 1] ∧
    buildKnotVector [(0 : ℚ), 1] 1 1 = Except.error FitError.invalidConfiguration ∧
    buildKnotVector [] 1 2 = Except.error FitError.invalidConfiguration ∧
    buildKnotVector [(5 : ℚ)] 1 2 = Except.error FitError.invalidConfiguration ∧
    buildKnotVector [(0 : ℚ), 1] 1 4 = Except.error FitError.illConditionedKnots := by
  have h1 := (buildKnotVector_spec [(0 : ℚ), 1] 1 2).2.2.2.2.1 (by omega) (by decide)
    (by norm_num [listMin, listMax]) (by decide)
  have h2 := (buildKnotVector_spec [(0 : ℚ), 1] 1 1).1 (by omega)
  have h3 := (buildKnotVector_spec ([] : List ℚ) 1 2).2.1 rfl
  have h4 := (buildKnotVector_spec [(5 : ℚ)] 1 2).2.2.1 (by norm_num [listMin, listMax])
  have h5 := (buildKnotVector_spec [(0 : ℚ), 1] 1 4).2.2.2.1 (by omega) (by decide)
    (by norm_num [listMin, listMax])
    (by norm_num [swCovered, interiorKnots, listMin, listMax, List.range_succ])
  refine ⟨?_, h2, h3, h4, h5⟩
  rw [h1]
  rfl

/-- C6: a query point with at least one coordinate outside that
dimension's clamped knot range `[first clamped knot, last clamped knot]`
makes both `evaluate` and the Jacobian evaluation fail with
`OutOfDomain`; no value is ever extrapolated for such a point. -/
theorem evaluate_out_of_domain (m : BSplineModel) (x : List ℚ)
    (h : ∃ i, i < m.knots.length ∧
      (x.getD i 0 < m.domainLo i ∨ m.domainHi i < x.getD i 0)) :
    m.evaluate x = Except.error FitError.outOfDomain ∧
    m.evaluateJacobian x = Except.error FitError.outOfDomain := by
  obtain ⟨i, hi, hout⟩ := h
  have hb : m.outOfDomain x = true := by
    rw [BSplineModel.outOfDomain, List.any_eq_true]
    refine ⟨i, List.mem_range.mpr hi, ?_⟩
    simp only [Bool.or_eq_true, decide_eq_true_eq]
    exact hout
  rw [BSplineModel.evaluate, BSplineModel.evaluateJacobian, if_pos hb, if_pos hb]
  exact ⟨rfl, rfl⟩

/-- Witness for C6: a one-dimensional degree-1 model on knots
`[0, 0, 1, 1]` queried at `t = 2`. -/
theorem evaluate_out_of_domain_witness :
    BSplineModel.evaluate ⟨1, 1, [[0, 0, 1, 1]], [1], [0, 0]⟩ [2] =
      Except.error FitError.outOfDomain ∧
    BSplineModel.evaluateJacobian ⟨1, 1, [[0, 0, 1, 1]], [1], [0, 0]⟩ [2] =
      Except.error FitError.outOfDomain := by
  refine evaluate_out_of_domain ⟨1, 1, [[0, 0, 1, 1]], [1], [0, 0]⟩ [2] ⟨0, ?_, ?_⟩
  · decide
  · right
    norm_num [BSplineModel.domainHi]

/-- C9: whenever the unfitted construction path succeeds, the returned
model's control-point array is the all-zero array of length equal to the
product over dimensions of the requested basis-function counts. -/
theorem bspline_unfitted_zero_coefficients (data : DataTable) (degrees : List ℕ)
    (sp : KnotSpacing) (ns : List ℕ) (m : BSplineModel)
    (h : bspline_unfitted data degrees sp ns = Except.ok m) :
    m.coefficients = List.replicate ns.prod 0 ∧
    m.coefficients.length = ns.prod ∧
    ∀ c ∈ m.coefficients, c = 0 := by
  rw [bspline_unfitted] at h
  by_cases hlen : degrees.length ≠ data.dim_x ∨ ns.length ≠ data.dim_x
  · rw [if_pos hlen] at h
    exact absurd h (by simp)
  · rw [if_neg hlen] at h
    rcases hkv : (List.range data.dim_x).mapM (fun i =>
        buildKnotVector (data.abscissas i) (degrees.getD i 0) (ns.getD i 0)) with
      e | kvs
    · rw [hkv] at h
      exact absurd h (by simp)
    · rw [hkv] at h
      have hm : m = ⟨data.dim_x, data.dim_y, kvs, degrees,
          List.replicate ns.prod 0⟩ := by
        cases h
        rfl
      subst hm
      refine ⟨rfl, by simp, fun c hc => List.eq_of_mem_replicate hc⟩

/-- Witness for C9: one dimension, two samples, degree 1, two basis
functions. -/
theorem bspline_unfitted_zero_coefficients_witness :
    (⟨1, 1, [[0, 0, 1, 1]], [1], [0, 0]⟩ : BSplineModel).coefficients =
      List.replicate ([2] : List ℕ).prod 0 ∧
    bspline_unfitted ⟨1, 1, [([0], [0]), ([1], [1])]⟩ [1] KnotSpacing.uniform [2] =
      Except.ok ⟨1, 1, [[0, 0, 1, 1]], [1], [0, 0]⟩ := by
  have hcomp : bspline_unfitted ⟨1, 1, [([0], [0]), ([1], [1])]⟩ [1]
      KnotSpacing.uniform [2] = Except.ok ⟨1, 1, [[0, 0, 1, 1]], [1], [0, 0]⟩ := by
    rfl
  have h := bspline_unfitted_zero_coefficients ⟨1, 1, [([0], [0]), ([1], [1])]⟩
    [1] KnotSpacing.uniform [2] ⟨1, 1, [[0, 0, 1, 1]], [1], [0, 0]⟩ hcomp
  exact ⟨h.1, hcomp⟩

theorem solveSquare_mulVec (n : ℕ) (M : Matrix (Fin n) (Fin n) ℚ)
    (y : Fin n → ℚ) (h : M.det ≠ 0) : M.mulVec (solveSquare n M y) = y := by
  rw [solveSquare, Matrix.mulVec_smul, Matrix.mulVec_mulVec, Matrix.mul_adjugate,
    Matrix.smul_mulVec_assoc, Matrix.one_mulVec, smul_smul, inv_mul_cancel₀ h,
    one_smul]

/-- C1: when the sample count equals the basis count and the design
matrix is non-singular, fitting with `smoothing = NONE` yields a model
that reproduces every sample output exactly at its sample input (the
`bspline_interpolator` contract). -/
theorem bspline_interpolator_exact {α : Type} (m : ℕ) (basisF : Fin m → α → ℚ)
    (xs : Fin m → α) (ys : Fin m → ℚ)
    (h : (designMatrix m basisF xs).det ≠ 0) :
    ∀ r : Fin m, modelEvalLinear m basisF (fitInterpolate m basisF xs ys) (xs r) = ys r := by
  intro r
  have key := solveSquare_mulVec m (designMatrix m basisF xs) ys h
  have step : modelEvalLinear m basisF (fitInterpolate m basisF xs ys) (xs r) =
      (designMatrix m basisF xs).mulVec (fitInterpolate m basisF xs ys) r := by
    rw [modelEvalLinear, Matrix.mulVec, Matrix.dotProduct]
    rfl
  rw [step, fitInterpolate, key]

/-- Witness for C1: one sample (x = 0, y = 2) with the constant basis. -/
theorem bspline_interpolator_exact_witness :
    modelEvalLinear 1 (fun _ (_ : ℚ) => (1 : ℚ))
      (fitInterpolate 1 (fun _ (_ : ℚ) => (1 : ℚ)) (fun _ => (0 : ℚ))
        (fun _ => (2 : ℚ))) 0 = 2 := by
  have hdet : (designMatrix 1 (fun _ (_ : ℚ) => (1 : ℚ)) (fun _ => (0 : ℚ))).det ≠ 0 := by
    rw [Matrix.det_fin_one]
    norm_num [designMatrix]
  exact bspline_interpolator_exact 1 (fun _ (_ : ℚ) => (1 : ℚ)) (fun _ => (0 : ℚ))
    (fun _ => (2 : ℚ)) hdet 0

/-- C8: the fit fails with `SingularSystem` exactly when the regularized
normal-equation matrix assembled for the requested smoothing mode and
alpha is singular, and otherwise solves that very system — there is no
silent fallback to a different smoothing mode or alpha. -/
theorem fit_singular_system (s n : ℕ) (D : Matrix (Fin s) (Fin n) ℚ)
    (y : Fin s → ℚ) (sm : Smoothing) (alpha : ℚ) :
    (fitSolve s n D y sm alpha = Except.error FitError.singularSystem ↔
      (fitMatrix s n D sm alpha).det = 0) ∧
    ((fitMatrix s n D sm alpha).det ≠ 0 →
      fitSolve s n D y sm alpha =
        Except.ok (solveSquare n (fitMatrix s n D sm alpha) (D.transpose.mulVec y))) := by
  refine ⟨⟨?_, ?_⟩, ?_⟩
  · intro h
    by_contra hd
    rw [fitSolve, if_neg hd] at h
    exact Except.noConfusion h
  · intro h
    rw [fitSolve, if_pos h]
  · intro h
    rw [fitSolve, if_neg h]

/-- Witness for C8: the all-zero 1x1 design matrix with no smoothing is
rejected as singular; the identity design matrix is solved. -/
theorem fit_singular_system_witness :
    fitSolve 1 1 0 (fun _ => (0 : ℚ)) Smoothing.NONE 0 =
      Except.error FitError.singularSystem ∧
    fitSolve 1 1 1 (fun _ => (1 : ℚ)) Smoothing.NONE 0 =
      Except.ok (solveSquare 1 (fitMatrix 1 1 1 Smoothing.NONE 0)
        ((1 : Matrix (Fin 1) (Fin 1) ℚ).transpose.mulVec (fun _ => (1 : ℚ)))) := by
  have h0 : (fitMatrix 1 1 0 Smoothing.NONE (0 : ℚ)).det = 0 := by
    rw [Matrix.det_fin_one]
    simp [fitMatrix]
  have h1 : (fitMatrix 1 1 1 Smoothing.NONE (0 : ℚ)).det ≠ 0 := by
    rw [Matrix.det_fin_one]
    simp [fitMatrix]
  exact ⟨(fit_singular_system 1 1 0 (fun _ => (0 : ℚ)) Smoothing.NONE 0).1.mpr h0,
    (fit_singular_system 1 1 1 (fun _ => (1 : ℚ)) Smoothing.NONE 0).2 h1⟩
